import Mathlib

/-
Verification of the Tanya mafia-game engine (src/extensions/game.py,
players.py, utils.py) against its natural-language specification.

The Python classes are shallowly embedded: role classes become an
inductive `Role` with the class attributes as functions, `Player`
objects become a structure whose inter-player references (killed_by,
protected_by, cleaned_by, disguised_as) are stored as player ids that
are looked up in the game state, and the stateful resolution routines
(`MafiaGame.pre_day`, `MafiaGame.day_tasks`) become state-passing
functions that additionally return the ordered trace of the
notifications they emit.  `random.SystemRandom.choice` is modelled by a
supply of natural numbers indexing into the candidate list modulo its
length; a Python `IndexError` escaping a routine is modelled by
`Option.none`.
-/

set_option maxRecDepth 4000

/-- Embeds the `AttackType` enum of players.py (lines 15-18): the three
attack tiers with their numeric values. -/
inductive AttackType where
  | basic
  | powerful
  | unstoppable
deriving DecidableEq

/-- Numeric value of an attack tier, as assigned in the Python enum. -/
def AttackType.value : AttackType → Nat
  | .basic => 1
  | .powerful => 2
  | .unstoppable => 3

/-- Embeds the `DefenseType` enum of players.py (lines 33-36). -/
inductive DefenseType where
  | basic
  | powerful
  | unstoppable
deriving DecidableEq

/-- Numeric value of a defense tier, as assigned in the Python enum. -/
def DefenseType.value : DefenseType → Nat
  | .basic => 1
  | .powerful => 2
  | .unstoppable => 3

/-- The role classes of players.py as a closed variant type.  `PI` is the
private investigator, `Mafia` the plain mafia, `Citizen` the plain
citizen. -/
inductive Role where
  | Citizen
  | Doctor
  | Sheriff
  | Jailor
  | PI
  | Lookout
  | Mafia
  | Janitor
  | Disguiser
  | Survivor
  | Jester
  | Executioner
  | Arsonist
deriving DecidableEq

/-- The `is_mafia` class attribute: true for `Mafia` and its subclasses
`Janitor` and `Disguiser` (players.py 393, 416, 439). -/
def Role.is_mafia : Role → Bool
  | .Mafia | .Janitor | .Disguiser => true
  | _ => false

/-- The `is_citizen` class attribute: true for `Citizen` and its
subclasses `Doctor`, `Sheriff`, `Jailor`, `PI`, `Lookout`
(players.py 201, 209-389). -/
def Role.is_citizen : Role → Bool
  | .Citizen | .Doctor | .Sheriff | .Jailor | .PI | .Lookout => true
  | _ => false

/-- The `can_kill_mafia_at_night` class attribute: set only on `Sheriff`
(players.py 234). -/
def Role.can_kill_mafia_at_night : Role → Bool
  | .Sheriff => true
  | _ => false

/-- The `attack_type` class attribute of each role (players.py 228, 257,
394, 547); inherited by `Janitor` and `Disguiser` from `Mafia`. -/
def Role.attack_type : Role → Option AttackType
  | .Sheriff => some .basic
  | .Jailor => some .unstoppable
  | .Mafia | .Janitor | .Disguiser => some .basic
  | .Arsonist => some .unstoppable
  | _ => none

/-- The `defense_type` class attribute of each role (players.py 211, 258,
474, 548). -/
def Role.defense_type : Role → Option DefenseType
  | .Doctor => some .powerful
  | .Jailor => some .powerful
  | .Survivor => some .basic
  | .Arsonist => some .basic
  | _ => none

/-- Membership in the `__special_mafia__` tuple `(Janitor, Disguiser)`
of players.py line 585. -/
def Role.is_special_mafia : Role → Bool
  | .Janitor | .Disguiser => true
  | _ => false

/-- A player of the game: the mutable per-player state of the Python
`Player` object.  `pid` identifies the player inside the game,
`member_id` is the chat-platform user id of `player.member`.  The
references `killed_by`, `protected_by`, `cleaned_by` and `disguised_as`
hold the `pid` of the referenced player, `none` standing for Python
`None`. -/
structure Player where
  pid : Nat
  member_id : Nat
  role : Role
  dead : Bool
  is_godfather : Bool
  lynched : Bool
  killed_by : Option Nat
  protected_by : Option Nat
  cleaned_by : Option Nat
  disguised_as : Option Nat
deriving DecidableEq

/-- A freshly constructed player (Player.__init__ plus the class-level
attribute defaults of players.py 51-86). -/
def basePlayer (pid member_id : Nat) (role : Role) : Player :=
  ⟨pid, member_id, role, false, false, false, none, none, none, none⟩

/-- The state of a `MafiaGame`: the player roster, the `is_day` flag and
the `_day` counter (game.py 60-80). -/
structure GameState where
  players : List Player
  is_day : Bool
  day : Nat
deriving DecidableEq

/-- Looks a player up by id, as attribute access on a stored `Player`
reference does in the Python code. -/
def GameState.find (s : GameState) (pid : Nat) : Option Player :=
  s.players.find? (fun p => p.pid == pid)

/-- The `total_mafia` property (game.py 84-86): living mafia count. -/
def GameState.total_mafia (s : GameState) : Nat :=
  (s.players.filter (fun p => p.role.is_mafia && !p.dead)).length

/-- The `total_alive` property (game.py 94-96): living player count. -/
def GameState.total_alive (s : GameState) : Nat :=
  (s.players.filter (fun p => !p.dead)).length

/-- Number of living players currently flagged godfather; the `godfather`
property of game.py 102-106 returns the first such player. -/
def livingGodfathers (s : GameState) : Nat :=
  (s.players.filter (fun p => p.is_godfather && !p.dead)).length

/-- Embeds `Mafia.win_condition` (players.py 400-413).  During the day it
returns `False` if any living player can kill mafia at night, otherwise
compares `total_mafia >= total_alive / 2` under Python true division;
during the night it compares `total_mafia > total_alive / 2`. -/
def mafia_win_condition (s : GameState) : Bool :=
  if s.is_day then
    if s.players.any (fun p => !p.dead && p.role.can_kill_mafia_at_night) then
      false
    else
      decide ((s.total_mafia : ℚ) ≥ (s.total_alive : ℚ) / 2)
  else
    decide ((s.total_mafia : ℚ) > (s.total_alive : ℚ) / 2)

/-- Candidate list of `MafiaGame.choose_godfather` (game.py 185-192): all
players whose role is mafia and whose class is not in `__special_mafia__`.
Note the source applies no `dead` filter. -/
def godfatherCandidates (s : GameState) : List Player :=
  s.players.filter (fun p => p.role.is_mafia && !p.role.is_special_mafia)

/-- Applies an attribute assignment to the player with the given id,
leaving every other roster entry unchanged. -/
def updatePlayer (s : GameState) (pid : Nat) (f : Player → Player) : GameState :=
  { s with players := s.players.map (fun p => if p.pid == pid then f p else p) }

/-- Sets the `is_godfather` attribute of the player with the given id. -/
def setGodfatherFlag (s : GameState) (pid : Nat) (b : Bool) : GameState :=
  updatePlayer s pid (fun p => { p with is_godfather := b })

/-- Sets the `dead` attribute of the player with the given id. -/
def setDead (s : GameState) (pid : Nat) : GameState :=
  updatePlayer s pid (fun p => { p with dead := true })

/-- Embeds `MafiaGame.choose_godfather` (game.py 184-195).  The uniform
`SystemRandom.choice` over the candidate list is modelled by the index
`k % length`; the empty-candidate `IndexError` is modelled by `none`.
Returns the updated state and the chosen player's id. -/
def choose_godfather (s : GameState) (k : Nat) : Option (GameState × Nat) :=
  let cands := godfatherCandidates s
  match cands[k % cands.length]? with
  | none => none
  | some chosen => some (setGodfatherFlag s chosen.pid true, chosen.pid)

/-- One entry of the accumulated `notifs` list that `pre_day` passes to
`day_notification` — the public day announcement (game.py 652-719). -/
inductive Notif where
  | death (victim : Nat) (victimRole killerRole : Role)
  | noOneKilled
  | gameStarted
  | lynchedNotice (victim : Nat) (role : Role)
deriving DecidableEq

/-- One observable output of day resolution, in emission order: private
channel sends, public chat sends, the godfather reassignment, and the
final `day_notification` call carrying the accumulated notifs. -/
inductive Event where
  | savedPrivate (victim : Nat)
  | mafiaSaved (victim : Nat)
  | cleanerNotice (cleaner victim : Nat) (victimRole : Role)
  | chatDeath (victim : Nat)
  | godfatherAssigned (newGodfather : Nat)
  | dayNotification (notifs : List Notif)
deriving DecidableEq

/-- The saving condition of `pre_day` (game.py 663-666): the victim is
saved exactly when `player.protected_by` is set and
`killer.attack_type > player.protected_by.defense_type` under
`AttackType.__gt__`, i.e. strictly greater numeric value.  A missing
protector entry or a missing tier, on which Python would raise, is
unreachable for the kills the game can produce and is modelled as
no save. -/
def pre_day_saved (s : GameState) (player killer : Player) : Bool :=
  match player.protected_by with
  | none => false
  | some protPid =>
    match s.find protPid, killer.role.attack_type with
    | some prot, some atk =>
      match prot.role.defense_type with
      | some d => decide (atk.value > d.value)
      | none => false
    | _, _ => false

/-- Accumulator threaded through the `pre_day` player loop: current
state, accumulated public notifs, ordered event trace, the `killed`
non-empty flag, and the remaining random supply for godfather draws. -/
structure ResolveAcc where
  st : GameState
  notifs : List Notif
  evts : List Event
  killedAny : Bool
  rand : List Nat
deriving DecidableEq

/-- The body of the `for player in self.players` loop of `pre_day`
(game.py 656-712) for a single player id.  Skips dead players and
players without a killer; otherwise either emits the saved
notifications, or (cleaned) notifies the cleaner privately, or
(uncleaned) appends the public death notif and chat announcement; then
marks the victim dead and, if the victim was godfather, synchronously
reassigns the godfather and clears the victim's flag.  `none` models an
`IndexError` escaping from `choose_godfather`. -/
def pre_day_player_step (acc : ResolveAcc) (pid : Nat) : Option ResolveAcc :=
  match acc.st.find pid with
  | none => some acc
  | some player =>
    if player.dead then some acc
    else
      match player.killed_by with
      | none => some acc
      | some killerPid =>
        match acc.st.find killerPid with
        | none => some acc
        | some killer =>
          if pre_day_saved acc.st player killer then
            some { acc with
              evts := acc.evts ++ [.savedPrivate pid] ++
                (if killer.role.is_mafia then [.mafiaSaved pid] else []) }
          else
            let notifs' :=
              match player.cleaned_by with
              | some _ => acc.notifs
              | none => acc.notifs ++ [.death pid player.role killer.role]
            let evts' :=
              match player.cleaned_by with
              | some cleanerPid => acc.evts ++ [.cleanerNotice cleanerPid pid player.role]
              | none => acc.evts ++ [.chatDeath pid]
            let killedAny' :=
              match player.cleaned_by with
              | some _ => acc.killedAny
              | none => true
            let st' := setDead acc.st pid
            if player.is_godfather then
              match choose_godfather st' (acc.rand.headD 0) with
              | none => none
              | some (st'', newGf) =>
                some ⟨setGodfatherFlag st'' pid false, notifs',
                  evts' ++ [.godfatherAssigned newGf], killedAny', acc.rand.tail⟩
            else
              some ⟨st', notifs', evts', killedAny', acc.rand⟩

/-- Runs `pre_day_player_step` over the listed player ids in roster
order, stopping with `none` if any step raises. -/
def pre_day_fold (pids : List Nat) (acc : ResolveAcc) : Option ResolveAcc :=
  match pids with
  | [] => some acc
  | pid :: rest =>
    match pre_day_player_step acc pid with
    | none => none
    | some acc' => pre_day_fold rest acc'

/-- The `cleanup_attrs` method (players.py 97-104) restricted to the
fields carried by this model. -/
def cleanup_attrs (p : Player) : Player :=
  { p with killed_by := none, protected_by := none,
           cleaned_by := none, disguised_as := none }

/-- The cleanup loop at the end of `pre_day` (game.py 722-724): living
players have their per-cycle attributes reset, dead players keep
theirs. -/
def cleanupAll (s : GameState) : GameState :=
  { s with players := s.players.map (fun p => if p.dead then p else cleanup_attrs p) }

/-- Embeds `MafiaGame.pre_day` (game.py 651-726).  On day 1 only the
game-started notification is emitted; from day 2 on, the player loop
resolves the night's kills, the `noOneKilled` notif is appended when the
`killed` list stayed empty, and `day_notification` is called last with
the accumulated notifs.  Returns the new state, the public notifs and
the ordered event trace; `none` models an uncaught `IndexError` from
`choose_godfather`. -/
def pre_day (s : GameState) (rand : List Nat) :
    Option (GameState × List Notif × List Event) :=
  if s.day > 1 then
    match pre_day_fold (s.players.map (fun p => p.pid)) ⟨s, [], [], false, rand⟩ with
    | none => none
    | some acc =>
      let notifs := if acc.killedAny then acc.notifs else acc.notifs ++ [.noOneKilled]
      some (cleanupAll acc.st, notifs, acc.evts ++ [.dayNotification notifs])
  else
    some (cleanupAll s, [.gameStarted], [.dayNotification [.gameStarted]])

/-- The mutable `nominations` dict captured by `nomination_check`
(utils.py 75-127, game.py 741): per-target nomination counts plus the
distinguished `nomination` entry set when the threshold is met. -/
structure NomState where
  counts : List (Nat × Nat)
  nomination : Option Nat
deriving DecidableEq

/-- Reads `nominations.get(player, 0)` from the association list. -/
def lookupCount (c : List (Nat × Nat)) (t : Nat) : Nat :=
  match c.find? (fun e => e.1 == t) with
  | some e => e.2
  | none => 0

/-- Writes `nominations[player] = n` into the association list. -/
def setCount (c : List (Nat × Nat)) (t n : Nat) : List (Nat × Nat) :=
  match c with
  | [] => [(t, n)]
  | e :: rest => if e.1 == t then (t, n) :: rest else e :: setCount rest t n

/-- The `noms_needed` computation of utils.py 81-84: one nomination for
the mafia variant when mafia are alive, otherwise two. -/
def noms_needed (s : GameState) (mafia : Bool) : Nat :=
  if mafia then (if s.total_mafia ≠ 0 then 1 else 2) else 2

/-- Embeds the message predicate built by `nomination_check`
(utils.py 86-127) for one incoming `>>nominate` message, already known
to be in the watched channel and carrying the `>>nominate ` prefix.
`authorId` is the author's member id, `target` the result of
`get_mafia_player` on the message remainder (`none` models
`MemberNotFound`).  Returns the updated nominations dict and the
predicate's boolean result.  Note the source requires the author to be
a player of the game but not to be alive, blocks self-nomination and
dead targets, and counts nominations per target only. -/
def nomination_check (s : GameState) (mafia : Bool) (noms : NomState)
    (authorId : Nat) (target : Option Nat) : NomState × Bool :=
  match s.players.find? (fun p => p.member_id == authorId) with
  | none => (noms, false)
  | some nominator =>
    match target with
    | none => (noms, false)
    | some tpid =>
      match s.find tpid with
      | none => (noms, false)
      | some player =>
        if nominator.pid == player.pid then (noms, false)
        else if player.dead then (noms, false)
        else if mafia && player.role.is_mafia then (noms, false)
        else
          let c := lookupCount noms.counts tpid + 1
          let counts' := setCount noms.counts tpid c
          if c == noms_needed s mafia then
            (⟨counts', some tpid⟩, true)
          else
            (⟨counts', noms.nomination⟩, false)

/-- One `>>nominate` chat message as seen by `nominate_player`
(game.py 744-757): the author's member id and the target resolution. -/
structure DayMsg where
  authorId : Nat
  target : Option Nat
deriving DecidableEq

/-- The `nominate_player` task of game.py 744-757: feeds messages to
`nomination_check` until the predicate first returns true, yielding the
nominated player's id, or `none` if the day ends first. -/
def runNominations (s : GameState) (noms : NomState) : List DayMsg → Option Nat
  | [] => none
  | m :: rest =>
    let r := nomination_check s false noms m.authorId m.target
    if r.2 then r.1.nomination else runNominations s r.1 rest

/-- The vote tally loops of game.py 783-788: counts the reacting users
that are living players of the game. -/
def countLivingVoters (s : GameState) (voters : List Nat) : Nat :=
  (voters.filter (fun u => s.players.any (fun p => p.member_id == u && !p.dead))).length

/-- The lynch assignments `player.dead = True; player.lynched = True` of
game.py 792-793 on the player with the given id. -/
def setLynched (s : GameState) (pid : Nat) : GameState :=
  updatePlayer s pid (fun p => { p with dead := true, lynched := true })

/-- Embeds the lynch portion of `MafiaGame.day_tasks` (game.py 728-817).
The nomination solicitation is started only when `_day > 1`; a vote
happens only if a nomination completed; the nominee is lynched when the
living yes votes strictly exceed the living no votes; a lynched
godfather triggers `choose_godfather`, whose `IndexError` is caught and
makes the method return before the lynch notification.  Returns the new
state, the lynched player's id if any, and the emitted lynch notifs. -/
def day_tasks (s : GameState) (msgs : List DayMsg)
    (yesVoters noVoters : List Nat) (rand : List Nat) :
    GameState × Option Nat × List Notif :=
  if s.day > 1 then
    match runNominations s ⟨[], none⟩ msgs with
    | none => (s, none, [])
    | some t =>
      let yes := countLivingVoters s yesVoters
      let no := countLivingVoters s noVoters
      if yes > no then
        match s.find t with
        | none => (s, none, [])
        | some tp =>
          let s₁ : GameState := setLynched s t
          if tp.role.is_mafia && tp.is_godfather then
            match choose_godfather s₁ (rand.headD 0) with
            | none => (s₁, some t, [])
            | some (s₂, _) => (s₂, some t, [.lynchedNotice t tp.role])
          else (s₁, some t, [.lynchedNotice t tp.role])
      else (s, none, [])
  else (s, none, [])

/-- The Sheriff's alignment test on the chosen target (players.py
242-244): the target is treated as a citizen — making the Sheriff shoot
themself — when `player.is_citizen` or `player.disguised_as` is set and
`player.disguised_as.is_citizen`. -/
def sheriffTreatsAsCitizen (s : GameState) (target : Player) : Bool :=
  target.role.is_citizen ||
    (match target.disguised_as with
     | some dpid =>
       match s.find dpid with
       | some dp => dp.role.is_citizen
       | none => false
     | none => false)

/-- The PI's comparison of the two investigated players (players.py
347-349): same alignment iff both are citizens or both are mafia, read
from the true role attributes. -/
def piSameAlignment (p1 p2 : Player) : Bool :=
  (p1.role.is_citizen && p2.role.is_citizen) || (p1.role.is_mafia && p2.role.is_mafia)

/-- The target validity test of `mafia_kill_check` (utils.py 166-169):
the resolved target is accepted iff `p.is_mafia` is false. -/
def mafiaKillCheckAllows (p : Player) : Bool :=
  !p.role.is_mafia

/-- Written from the claim's words, for comparison with the source
checks: the apparent role of a player is the role of the player they
are disguised as when a disguise is recorded, else their own role. -/
def apparentRole (s : GameState) (p : Player) : Role :=
  match p.disguised_as with
  | some dpid =>
    match s.find dpid with
    | some dp => dp.role
    | none => p.role
  | none => p.role

/-- A message content submitted to `get_mafia_player` (utils.py 30-52).
`ident uid digits` stands for a content matching one of the two id
regexes — a bare digit string or a mention wrapper around one — whose
numeric value is `uid` and whose digit count is `digits`; `txt` stands
for any other content. -/
inductive Arg where
  | ident (uid : Nat) (digits : Nat)
  | txt (content : String)
deriving DecidableEq

/-- Embeds `get_mafia_player` (utils.py 30-52).  An id-shaped content of
15 to 20 digits is resolved by member id over `game.players`; any other
content goes through `process.extractBests` fuzzy matching over all
player names with cutoff 80, abstracted here as the `fuzzy` parameter,
which returns the matched player's id or `none`.  The result `none`
models the `MemberNotFound` raise.  Note the source never filters dead
players. -/
def get_mafia_player (s : GameState) (fuzzy : Arg → Option Nat) (arg : Arg) : Option Nat :=
  match arg with
  | .ident uid d =>
    if 15 ≤ d && d ≤ 20 then
      (s.players.find? (fun p => p.member_id == uid)).map (fun p => p.pid)
    else
      fuzzy arg
  | .txt _ => fuzzy arg

/-- Embeds the message predicate built by `private_channel_check`
(utils.py 130-150).  `inOwnChannel` and `fromSoliciting` are the two
channel/author guards; a `MemberNotFound` from `get_mafia_player` yields
false (the solicitation keeps waiting), a self-choice with
`can_choose_self` unset falls through to false after the complaint
message, and any other resolved player yields true. -/
def private_channel_check (s : GameState) (fuzzy : Arg → Option Nat)
    (soliciting : Player) (can_choose_self : Bool)
    (inOwnChannel fromSoliciting : Bool) (content : Arg) : Bool :=
  if !inOwnChannel then false
  else if !fromSoliciting then false
  else
    match get_mafia_player s fuzzy content with
    | none => false
    | some p =>
      if !can_choose_self && soliciting.pid == p then false
      else true

/-- Embeds `Janitor.night_task` (players.py 428-436) as a function of the
`cleans` counter and the target the janitor would pick: the method
returns without soliciting when `self.cleans <= 3`; otherwise it records
the clean and decrements the counter.  Returns the new counter and the
recorded clean target, if any. -/
def janitor_night_task (cleans : Nat) (target : Nat) : Nat × Option Nat :=
  if cleans ≤ 3 then (cleans, none)
  else (cleans - 1, some target)

/-- The class-level initial value `cleans: int = 3` (players.py 418). -/
def janitorInitialCleans : Nat := 3

/-- The values the janitor's `cleans` counter can take over any game: it
starts at `janitorInitialCleans` and is only ever updated by running
`janitor_night_task`. -/
inductive JanitorReachable : Nat → Prop where
  | init : JanitorReachable janitorInitialCleans
  | step (c t : Nat) : JanitorReachable c → JanitorReachable (janitor_night_task c t).1

/-- Written from the claim's words, for comparison with `pre_day`: a
kill succeeds iff the attack tier strictly exceeds the protecting
defense tier; an unprotected target always dies. -/
def specKillSucceeds (a : AttackType) (d : Option DefenseType) : Bool :=
  match d with
  | none => true
  | some d => decide (a.value > d.value)

/-- The per-cycle-constant part of a player: everything except the
`dead` and `is_godfather` flags, the only two attributes the `pre_day`
loop mutates before its cleanup phase. -/
def Player.core (p : Player) : Player :=
  { p with dead := false, is_godfather := false }

/-- Two states whose rosters agree up to the `dead` and `is_godfather`
flags. -/
def coreMapEq (s₁ s₂ : GameState) : Prop :=
  s₁.players.map Player.core = s₂.players.map Player.core

/-- The player a day-resolution event is addressed to or about, when the
event concerns a single victim. -/
def evtOwner : Event → Option Nat
  | .savedPrivate p => some p
  | .mafiaSaved p => some p
  | .cleanerNotice _ p _ => some p
  | .chatDeath p => some p
  | .godfatherAssigned _ => none
  | .dayNotification _ => none

/-- Events that one iteration of the `pre_day` loop for player `q` can
emit: victim-addressed events about `q`, or a godfather reassignment. -/
def stepEvt (q : Nat) (e : Event) : Prop :=
  evtOwner e = some q ∨ ∃ g, e = Event.godfatherAssigned g

/-- Concrete state for the kill/protection claims: a Doctor-protected
mafia (pid 1) shot by the Sheriff (basic attack vs powerful defense) and
a Jailor-jailed, Jailor-executed citizen (pid 4, unstoppable attack vs
the jail's powerful protection), on day 2. -/
def sC1 : GameState :=
  ⟨[⟨0, 100, .Doctor, false, false, false, none, none, none, none⟩,
    ⟨1, 101, .Mafia, false, false, false, some 3, some 0, none, none⟩,
    ⟨2, 102, .Jailor, false, false, false, none, none, none, none⟩,
    ⟨3, 103, .Sheriff, false, false, false, none, none, none, none⟩,
    ⟨4, 104, .Citizen, false, false, false, some 2, some 2, none, none⟩],
   true, 2⟩

/-- Concrete state for the godfather-succession claims: the godfather
(pid 1, plain mafia) was shot by the Sheriff (pid 0); one plain mafia
(pid 2) is alive. -/
def sC4 : GameState :=
  ⟨[⟨0, 200, .Sheriff, false, false, false, none, none, none, none⟩,
    ⟨1, 201, .Mafia, false, true, false, some 0, none, none, none⟩,
    ⟨2, 202, .Mafia, false, false, false, none, none, none, none⟩],
   true, 2⟩

/-- Concrete state for the succession-candidate claim: the godfather
(pid 0, plain mafia) was shot by the Sheriff (pid 1); the only other
mafia alive is a Janitor (pid 2), a special-mafia role. -/
def sC3 : GameState :=
  ⟨[⟨0, 210, .Mafia, false, true, false, some 1, none, none, none⟩,
    ⟨1, 211, .Sheriff, false, false, false, none, none, none, none⟩,
    ⟨2, 212, .Janitor, false, false, false, none, none, none, none⟩],
   true, 2⟩

/-- The computed `pre_day` output on `sC3` with draw index 0, used to
state facts about its trace. -/
def c3wOut : GameState × List Notif × List Event :=
  (pre_day sC3 [0]).getD (⟨[], true, 0⟩, [], [])

/-- Concrete state for the cleaned-kill claim: a citizen (pid 1) killed
by the mafia godfather (pid 2) and cleaned by the Janitor (pid 0), on
day 2. -/
def sC5w : GameState :=
  ⟨[⟨0, 220, .Janitor, false, false, false, none, none, none, none⟩,
    ⟨1, 221, .Citizen, false, false, false, some 2, none, some 0, none⟩,
    ⟨2, 222, .Mafia, false, true, false, none, none, none, none⟩],
   true, 2⟩

/-- The computed `pre_day` output on `sC5w`, used by the cleaned-kill
witness. -/
def c5wOut : GameState × List Notif × List Event :=
  (pre_day sC5w []).getD (⟨[], true, 0⟩, [], [])

/-- Concrete state for the nomination claims: two living citizens. -/
def pA6 : Player := ⟨0, 100, .Citizen, false, false, false, none, none, none, none⟩

/-- Second citizen of the nomination example. -/
def pB6 : Player := ⟨1, 101, .Citizen, false, false, false, none, none, none, none⟩

/-- Nomination example state, on day 2. -/
def sC6 : GameState := ⟨[pA6, pB6], true, 2⟩

/-- The nominations dict after player `pA6` nominates `pB6` once. -/
def c6Nom1 : NomState :=
  (nomination_check sC6 false ⟨[], none⟩ 100 (some 1)).1

/-- Concrete citizen for the disguise claims. -/
def pC7 : Player := ⟨0, 300, .Citizen, false, false, false, none, none, none, none⟩

/-- Concrete mafia disguised as the citizen `pC7`. -/
def pM7 : Player := ⟨1, 301, .Mafia, false, false, false, none, none, none, some 0⟩

/-- Disguise example state during the night. -/
def sC7 : GameState := ⟨[pC7, pM7], false, 2⟩

/-- Concrete soliciting player for the target-validation claim. -/
def pA8 : Player := ⟨0, 1111111111111111, .Citizen, false, false, false, none, none, none, none⟩

/-- Target-validation example state: `pA8` is being solicited while the
player with pid 1 and the 17-digit member id 22222222222222222 is
dead. -/
def sC8 : GameState :=
  ⟨[pA8, ⟨1, 22222222222222222, .Citizen, true, false, false, none, none, none, none⟩],
   false, 2⟩

/-- Day-2 state for the lynch-possibility claims: three living players,
two of whom nominate the citizen with pid 1. -/
def sDay2 : GameState :=
  ⟨[⟨0, 100, .Citizen, false, false, false, none, none, none, none⟩,
    ⟨1, 101, .Citizen, false, false, false, none, none, none, none⟩,
    ⟨2, 102, .Mafia, false, true, false, none, none, none, none⟩],
   true, 2⟩

/-- The same roster as `sDay2` but on day 1. -/
def sDay1 : GameState :=
  ⟨[⟨0, 100, .Citizen, false, false, false, none, none, none, none⟩,
    ⟨1, 101, .Citizen, false, false, false, none, none, none, none⟩,
    ⟨2, 102, .Mafia, false, true, false, none, none, none, none⟩],
   true, 1⟩

/-- C1.  The claim states a night-kill victim dies iff the attack tier
strictly exceeds the protecting defense tier (equal tiers favour the
defender, unprotected targets die).  The save condition of `pre_day`
(game.py 663-666) is inverted — it saves exactly when the attack
EXCEEDS the defense — so on `sC1` the Doctor-protected mafia (pid 1,
basic attack against powerful defense) dies although the claim says it
survives, and the Jailor-executed citizen (pid 4, unstoppable attack
against powerful defense) survives although the claim says it dies.
The claim matches both the intent of the tier order and the code's own
night-time check `defense_type >= attack_type` (game.py 622-624), so
this is a defect of `pre_day`. -/
theorem c1_code_bug_eval :
    (pre_day sC1 []).map
        (fun out => ((out.1.find 1).map Player.dead, (out.1.find 4).map Player.dead)) =
      some (some true, some false) ∧
    specKillSucceeds AttackType.basic (some DefenseType.powerful) = false ∧
    specKillSucceeds AttackType.unstoppable (some DefenseType.powerful) = true := by
  decide

/-- C2.  `Mafia.win_condition` is asymmetric between phases exactly as
claimed: during the day it returns false whenever a living player can
still kill mafia at night, and otherwise compares living mafia against
half the living players inclusively; during the night the comparison is
strict.  The right-hand side restates the claim with the rational
half-comparisons rendered as doubled natural-number comparisons. -/
theorem c2_mafia_win_condition (s : GameState) :
    mafia_win_condition s =
      (if s.is_day then
        (if s.players.any (fun p => !p.dead && p.role.can_kill_mafia_at_night) then
          false
         else
          decide (2 * s.total_mafia ≥ s.total_alive))
       else
        decide (2 * s.total_mafia > s.total_alive)) := by
  have h₁ : ((s.total_alive : ℚ) / 2 ≤ (s.total_mafia : ℚ)) ↔
      (s.total_alive ≤ 2 * s.total_mafia) := by
    rw [div_le_iff₀ (by norm_num : (0:ℚ) < 2), mul_comm]
    exact_mod_cast Iff.rfl
  have h₂ : ((s.total_alive : ℚ) / 2 < (s.total_mafia : ℚ)) ↔
      (s.total_alive < 2 * s.total_mafia) := by
    rw [div_lt_iff₀ (by norm_num : (0:ℚ) < 2), mul_comm]
    exact_mod_cast Iff.rfl
  unfold mafia_win_condition
  by_cases hd : s.is_day = true
  · rw [if_pos hd, if_pos hd]
    by_cases ha : s.players.any (fun p => !p.dead && p.role.can_kill_mafia_at_night) = true
    · rw [if_pos ha, if_pos ha]
    · rw [if_neg ha, if_neg ha]
      exact decide_eq_decide.mpr (by rw [ge_iff_le, ge_iff_le]; exact h₁)
  · rw [if_neg hd, if_neg hd]
    exact decide_eq_decide.mpr (by rw [gt_iff_lt, gt_iff_lt]; exact h₂)

/-- C4.  The claim asserts that after any resolution step exactly one
living mafia holds the godfather designation whenever mafia remain.  On
`sC4` the godfather (pid 1) is shot; `choose_godfather` draws from all
non-special mafia without filtering the dead, the draw hits the freshly
dead pid 1 itself, and `pre_day` then clears pid 1's flag — leaving
zero living godfathers while the plain mafia pid 2 is alive.  The claim
matches the spec's stated invariant and the `godfather` property of
game.py 102-106 (which `night_tasks` dereferences unconditionally), so
the missing dead-filter is a defect of `choose_godfather`. -/
theorem c4_code_bug_eval :
    (pre_day sC4 [0]).map (fun out => (livingGodfathers out.1, out.1.total_mafia)) =
      some (0, 1) := by
  decide

/-- C9.  The Janitor can never record a clean: `Janitor.night_task`
returns before soliciting whenever `cleans <= 3`, the counter starts at
3 and is only updated by the task itself, so every reachable counter
value is 3 and the recorded clean target is always `none` — hence no
player ever gets `cleaned_by` set to a Janitor and the cleaner branch
of `pre_day` is never exercised by one. -/
theorem c9_janitor_never_cleans :
    ∀ c, JanitorReachable c → c = 3 ∧ ∀ t, (janitor_night_task c t).2 = none := by
  intro c h
  induction h with
  | init => exact ⟨rfl, fun _ => rfl⟩
  | step c t _ ih =>
    rcases ih with ⟨h3, _⟩
    subst h3
    exact ⟨rfl, fun _ => rfl⟩

/-- Witness for C9: the initial counter value 3 is reachable and the
task then records no clean. -/
theorem c9_witness :
    janitorInitialCleans = 3 ∧ (janitor_night_task janitorInitialCleans 0).2 = none :=
  ⟨(c9_janitor_never_cleans janitorInitialCleans JanitorReachable.init).1,
   (c9_janitor_never_cleans janitorInitialCleans JanitorReachable.init).2 0⟩

/-- C10.  No player is ever lynched during day 1: `day_tasks` starts the
nomination solicitation only when `_day > 1`, so on day 1 it returns
the state unchanged with no lynch outcome; from day 2 onward a lynch is
possible, as the concrete day-2 run in the second conjunct shows. -/
theorem c10_no_day_one_lynch :
    (∀ (s : GameState) (msgs : List DayMsg) (yesVoters noVoters rand : List Nat),
        s.day = 1 → day_tasks s msgs yesVoters noVoters rand = (s, none, [])) ∧
    (day_tasks sDay2 [⟨100, some 1⟩, ⟨102, some 1⟩] [100] [] []).2.1 = some 1 := by
  constructor
  · intro s msgs ys ns rand h
    unfold day_tasks
    rw [h]
    norm_num
  · decide

/-- Witness for C10: the day-1 variant of the very inputs that lynch on
day 2 produces no lynch and leaves the state untouched. -/
theorem c10_witness :
    day_tasks sDay1 [⟨100, some 1⟩, ⟨102, some 1⟩] [100] [] [] = (sDay1, none, []) :=
  c10_no_day_one_lynch.1 sDay1 [⟨100, some 1⟩, ⟨102, some 1⟩] [100] [] [] rfl

/-- Counterexample to C3 as stated.  On `sC3` the dying godfather is the
only non-special mafia, and the only living mafia left is the Janitor
(pid 2).  The claim says the new godfather is drawn from the remaining
living mafia, admitting special mafia when no plain living mafia
exists — so it predicts pid 2.  The code instead draws from the
non-special mafia regardless of life status: the trace assigns the
godfather flag to the dead pid 0 and never to the living pid 2. -/
theorem c3_counterexample :
    (pre_day sC3 [0]).map
        (fun out =>
          (out.2.2.contains (Event.godfatherAssigned 0),
           out.2.2.contains (Event.godfatherAssigned 2),
           (out.1.find 0).map Player.dead,
           (out.1.find 2).map (fun p => !p.dead && p.role.is_mafia))) =
      some (true, false, some true, some true) := by
  decide

/-- Counterexample to C6 as stated.  The claim requires the two
nominations to come from two distinct players.  On `sC6`, player `pA6`
(member id 100) nominates pid 1 twice: the first call leaves the
predicate false, the second call — same nominator — opens the vote. -/
theorem c6_counterexample :
    (nomination_check sC6 false ⟨[], none⟩ 100 (some 1)).2 = false ∧
    (nomination_check sC6 false c6Nom1 100 (some 1)).2 = true ∧
    (nomination_check sC6 false c6Nom1 100 (some 1)).1.nomination = some 1 := by
  decide

/-- Counterexample to C7 as stated.  On `sC7` the mafia `pM7` is
disguised as the citizen `pC7`, so their apparent alignment is citizen;
the claim predicts the PI comparison of `pM7` and `pC7` reports the
same alignment and the godfather kill-target check accepts `pM7`.  The
code consults only true roles in both checks: the PI comparison is
false and the kill check rejects the target. -/
theorem c7_counterexample :
    piSameAlignment pM7 pC7 = false ∧
    ((apparentRole sC7 pM7).is_citizen && (apparentRole sC7 pC7).is_citizen) = true ∧
    mafiaKillCheckAllows pM7 = false ∧
    (apparentRole sC7 pM7).is_mafia = false := by
  decide

/-- Counterexample to C8 as stated.  The claim says a response resolving
to a dead player is rejected.  On `sC8` the solicited player submits the
id of the dead player pid 1; `get_mafia_player` resolves it with no
aliveness check and `private_channel_check` accepts the submission. -/
theorem c8_counterexample :
    private_channel_check sC8 (fun _ => none) pA8 false true true
        (Arg.ident 22222222222222222 17) = true ∧
    (sC8.find 1).map Player.dead = some true := by
  decide

/-- C7 as amended.  Only the Sheriff's shot outcome observes the
disguise: for targets that are not truly citizens it agrees with the
apparent-role citizenship test; the PI same-alignment comparison and
the godfather kill-target validity check read only true roles and are
invariant under any change of the `disguised_as` fields. -/
theorem c7_amended :
    (∀ (s : GameState) (t : Player), t.role.is_citizen = false →
        sheriffTreatsAsCitizen s t = (apparentRole s t).is_citizen) ∧
    (∀ (p1 p2 : Player) (d1 d2 : Option Nat),
        piSameAlignment { p1 with disguised_as := d1 } { p2 with disguised_as := d2 } =
          piSameAlignment p1 p2) ∧
    (∀ (p : Player) (d : Option Nat),
        mafiaKillCheckAllows { p with disguised_as := d } = mafiaKillCheckAllows p) := by
  refine ⟨?_, ?_, ?_⟩
  · intro s t h
    unfold sheriffTreatsAsCitizen apparentRole
    cases hd : t.disguised_as with
    | none => simp [h]
    | some dpid =>
      cases hf : s.find dpid with
      | none => simp [h, hf]
      | some dp => simp [h, hf]
  · intro p1 p2 d1 d2
    rfl
  · intro p d
    rfl

/-- Witness for the amended C7, instantiated on the disguised mafia of
`sC7`. -/
theorem c7_witness :
    sheriffTreatsAsCitizen sC7 pM7 = (apparentRole sC7 pM7).is_citizen :=
  c7_amended.1 sC7 pM7 rfl

/-- C8 as amended.  A response that resolves to no player, or to the
soliciting player themself while self-targeting is disallowed, is
rejected and the solicitation keeps waiting; but any other resolved
player is accepted as the submission — the check never consults the
target's `dead` flag, so dead targets are accepted. -/
theorem c8_amended (s : GameState) (fuzzy : Arg → Option Nat) (soliciting : Player)
    (cs inCh frS : Bool) (content : Arg) :
    private_channel_check s fuzzy soliciting cs inCh frS content = true ↔
      (inCh = true ∧ frS = true ∧
        ∃ p, get_mafia_player s fuzzy content = some p ∧
          (cs = true ∨ soliciting.pid ≠ p)) := by
  unfold private_channel_check
  cases inCh with
  | false => simp
  | true =>
    cases frS with
    | false => simp
    | true =>
      simp only [Bool.not_true, Bool.false_eq_true, if_false, true_and]
      cases hg : get_mafia_player s fuzzy content with
      | none => simp
      | some p =>
        cases cs with
        | true => simp
        | false =>
          by_cases hp : soliciting.pid = p
          · simp [hp]
          · simp [hp, Ne.symm hp]


theorem c6_amended :
    (∀ (s : GameState) (noms : NomState) (authorId tpid : Nat) (nominator tp : Player),
        s.players.find? (fun p => p.member_id == authorId) = some nominator →
        s.find tpid = some tp →
        ((nomination_check s false noms authorId (some tpid)).2 = true ↔
          (nominator.pid ≠ tp.pid ∧ tp.dead = false ∧
            lookupCount noms.counts tpid + 1 = 2))) ∧
    (∀ (s : GameState) (authorId : Nat) (target : Option Nat),
        (nomination_check s false ⟨[], none⟩ authorId target).2 = false) := by
  constructor
  · intro s noms authorId tpid nominator tp ha ht
    simp only [nomination_check, ha, ht]
    by_cases hself : nominator.pid = tp.pid
    · simp [hself]
    · have hself' : (nominator.pid == tp.pid) = false := by simpa using hself
      simp only [hself', Bool.false_eq_true, if_false]
      cases hdead : tp.dead with
      | true => simp
      | false =>
        simp only [Bool.false_eq_true, if_false, Bool.false_and]
        by_cases hc : lookupCount noms.counts tpid + 1 = 2
        · simp [noms_needed, hc, hself]
        · have hc1 : ¬lookupCount noms.counts tpid = 1 := by omega
          simp [noms_needed, hc, hc1, hself]
  · intro s authorId target
    simp only [nomination_check]
    cases ha : s.players.find? (fun p => p.member_id == authorId) with
    | none => rfl
    | some nominator =>
      dsimp only
      cases target with
      | none => rfl
      | some tpid =>
        dsimp only
        cases ht : s.find tpid with
        | none => rfl
        | some tp =>
          dsimp only
          by_cases hself : nominator.pid = tp.pid
          · simp [hself]
          · have hself' : (nominator.pid == tp.pid) = false := by simpa using hself
            simp only [hself', Bool.false_eq_true, if_false]
            cases hdead : tp.dead with
            | true => simp
            | false =>
              simp only [Bool.false_eq_true, if_false, Bool.false_and]
              simp [noms_needed, lookupCount]

/-- Witness for the amended C6, instantiated on the nominations dict of
`sC6` that already holds one nomination of pid 1. -/
theorem c6_witness :
    (nomination_check sC6 false c6Nom1 100 (some 1)).2 = true ↔
      (pA6.pid ≠ pB6.pid ∧ pB6.dead = false ∧ lookupCount c6Nom1.counts 1 + 1 = 2) :=
  c6_amended.1 sC6 c6Nom1 100 1 pA6 pB6 (by decide) (by decide)

theorem c3_amended :
    (∀ (s : GameState) (k : Nat) (s' : GameState) (g : Nat),
        choose_godfather s k = some (s', g) →
        ∃ p, (godfatherCandidates s)[k % (godfatherCandidates s).length]? = some p ∧
          g = p.pid ∧ p ∈ s.players ∧ p.role.is_mafia = true ∧
          p.role.is_special_mafia = false ∧ s' = setGodfatherFlag s p.pid true) ∧
    (∀ (s : GameState) (rand : List Nat) (out : GameState × List Notif × List Event),
        pre_day s rand = some out →
        out.2.2.getLast? = some (Event.dayNotification out.2.1)) := by
  constructor
  · intro s k s' g h
    simp only [choose_godfather] at h
    cases hg : (godfatherCandidates s)[k % (godfatherCandidates s).length]? with
    | none => rw [hg] at h; exact absurd h (by simp)
    | some chosen =>
      rw [hg] at h
      obtain ⟨h1, h2⟩ : setGodfatherFlag s chosen.pid true = s' ∧ chosen.pid = g := by
        simpa using h
      have hm : chosen ∈ godfatherCandidates s := List.getElem?_mem hg
      have hf := List.mem_filter.mp hm
      have hpred := hf.2
      rw [Bool.and_eq_true] at hpred
      refine ⟨chosen, rfl, h2.symm, hf.1, hpred.1, by simpa using hpred.2, h1.symm⟩
  · intro s rand out h
    unfold pre_day at h
    by_cases hd : s.day > 1
    · rw [if_pos hd] at h
      cases hf : pre_day_fold (s.players.map (fun p => p.pid)) ⟨s, [], [], false, rand⟩ with
      | none => rw [hf] at h; exact absurd h (by simp)
      | some acc =>
        rw [hf] at h
        obtain rfl := Option.some.inj h
        simp [List.getLast?_concat]
    · rw [if_neg hd] at h
      obtain rfl := Option.some.inj h
      rfl

/-- Witness for the amended C3: on the concrete `sC3` run the public
day notification closes the trace. -/
theorem c3_amended_witness :
    c3wOut.2.2.getLast? = some (Event.dayNotification c3wOut.2.1) :=
  c3_amended.2 sC3 [0] c3wOut (by rfl)

/-- Finding by id in a roster updated at one id returns the update of the
original find. -/
theorem find?_map_update (l : List Player) (pid pid' : Nat) (f : Player → Player)
    (hf : ∀ p, (f p).pid = p.pid) :
    (l.map (fun p => if p.pid == pid then f p else p)).find? (fun p => p.pid == pid') =
      (l.find? (fun p => p.pid == pid')).map (fun p => if p.pid == pid then f p else p) := by
  induction l with
  | nil => rfl
  | cons a t ih =>
    have hpid : (if a.pid == pid then f a else a).pid = a.pid := by
      split
      · exact hf a
      · rfl
    simp only [List.map_cons, List.find?]
    rw [hpid]
    cases hpa : a.pid == pid' with
    | true => rfl
    | false => exact ih

/-- `GameState.find` after `updatePlayer`, as a mapped find. -/
theorem updatePlayer_find (s : GameState) (pid : Nat) (f : Player → Player)
    (hf : ∀ p, (f p).pid = p.pid) (pid' : Nat) :
    (updatePlayer s pid f).find pid' =
      (s.find pid').map (fun p => if p.pid == pid then f p else p) :=
  find?_map_update s.players pid pid' f hf

/-- Updating one player's attributes leaves every other id's lookup
unchanged. -/
theorem updatePlayer_find_ne (s : GameState) (pid : Nat) (f : Player → Player)
    (hf : ∀ p, (f p).pid = p.pid) (pid' : Nat) (hne : pid' ≠ pid) :
    (updatePlayer s pid f).find pid' = s.find pid' := by
  rw [updatePlayer_find s pid f hf pid']
  cases hfind : s.find pid' with
  | none => rfl
  | some p =>
    have hfind' : List.find? (fun x => x.pid == pid') s.players = some p := hfind
    have hp : (fun x : Player => x.pid == pid') p = true :=
      @List.find?_some _ (fun x => x.pid == pid') p s.players hfind'
    have hp' : p.pid = pid' := by simpa using hp
    simp [hp', hne]

/-- A projection untouched by the update is preserved for every lookup. -/
theorem updatePlayer_find_proj {β : Type} (s : GameState) (pid : Nat) (f : Player → Player)
    (proj : Player → β) (hf : ∀ p, (f p).pid = p.pid)
    (hproj : ∀ p, proj (f p) = proj p) (pid' : Nat) :
    ((updatePlayer s pid f).find pid').map proj = (s.find pid').map proj := by
  rw [updatePlayer_find s pid f hf pid']
  cases s.find pid' with
  | none => rfl
  | some p =>
    simp only [Option.map_some']
    congr 1
    split
    · exact hproj p
    · rfl

/-- An update preserving `Player.core` preserves the core roster map. -/
theorem updatePlayer_coreMapEq (s : GameState) (pid : Nat) (f : Player → Player)
    (hcore : ∀ p, (f p).core = p.core) :
    coreMapEq s (updatePlayer s pid f) := by
  unfold coreMapEq updatePlayer
  rw [List.map_map]
  apply List.map_congr_left
  intro a _
  show a.core = ((if a.pid == pid then f a else a).core)
  split
  · exact (hcore a).symm
  · rfl

/-- Two lists with equal images under `f` have equal found images for any
predicate factoring through `f`. -/
theorem find?_map_eq {α β : Type} (f : α → β) (q : β → Bool) :
    ∀ (l₁ l₂ : List α), l₁.map f = l₂.map f →
      (l₁.find? (fun a => q (f a))).map f = (l₂.find? (fun a => q (f a))).map f := by
  intro l₁
  induction l₁ with
  | nil =>
    intro l₂ h
    cases l₂ with
    | nil => rfl
    | cons b t => exact absurd h (by simp)
  | cons a t ih =>
    intro l₂ h
    cases l₂ with
    | nil => exact absurd h (by simp)
    | cons b t₂ =>
      simp only [List.map_cons, List.cons.injEq] at h
      obtain ⟨hab, ht⟩ := h
      simp only [List.find?]
      rw [← hab]
      cases hq : q (f a) with
      | true => simp [hab]
      | false => exact ih t₂ ht

/-- Lookups in core-equal states agree up to `Player.core`. -/
theorem find_coreMapEq (s₁ s₂ : GameState) (h : coreMapEq s₁ s₂) (pid : Nat) :
    (s₁.find pid).map Player.core = (s₂.find pid).map Player.core :=
  find?_map_eq Player.core (fun q => q.pid == pid) s₁.players s₂.players h

/-- A successful lookup transfers along core equality of states. -/
theorem find_coreMapEq_some {s₁ s₂ : GameState} {pid : Nat} {p : Player}
    (h : coreMapEq s₁ s₂) (hp : s₁.find pid = some p) :
    ∃ p', s₂.find pid = some p' ∧ p'.core = p.core := by
  have hh := find_coreMapEq s₁ s₂ h pid
  rw [hp] at hh
  cases hq : s₂.find pid with
  | none => rw [hq] at hh; exact absurd hh (by simp)
  | some p' =>
    rw [hq] at hh
    exact ⟨p', rfl, by simpa using hh.symm⟩

/-- Core equality of players gives equality of every field the `pre_day`
loop never mutates. -/
theorem core_eq_proj {p q : Player} (h : p.core = q.core) :
    p.pid = q.pid ∧ p.role = q.role ∧ p.killed_by = q.killed_by ∧
      p.protected_by = q.protected_by ∧ p.cleaned_by = q.cleaned_by := by
  have h1 := congrArg Player.pid h
  have h2 := congrArg Player.role h
  have h3 := congrArg Player.killed_by h
  have h4 := congrArg Player.protected_by h
  have h5 := congrArg Player.cleaned_by h
  exact ⟨h1, h2, h3, h4, h5⟩

/-- The save condition of `pre_day` depends only on the core of the
state and of the two players involved. -/
theorem pre_day_saved_coreMapEq (s₁ s₂ : GameState) (h : coreMapEq s₁ s₂)
    (p₁ p₂ k₁ k₂ : Player) (hp : p₁.core = p₂.core) (hk : k₁.core = k₂.core) :
    pre_day_saved s₁ p₁ k₁ = pre_day_saved s₂ p₂ k₂ := by
  unfold pre_day_saved
  obtain ⟨-, -, -, hprot, -⟩ := core_eq_proj hp
  obtain ⟨-, hkrole, -, -, -⟩ := core_eq_proj hk
  rw [hprot, hkrole]
  cases p₂.protected_by with
  | none => rfl
  | some protPid =>
    dsimp only
    have hfind := find_coreMapEq s₁ s₂ h protPid
    cases h₁ : s₁.find protPid with
    | none =>
      cases h₂ : s₂.find protPid with
      | none => cases k₂.role.attack_type <;> rfl
      | some q₂ => rw [h₁, h₂] at hfind; exact absurd hfind (by simp)
    | some q₁ =>
      cases h₂ : s₂.find protPid with
      | none => rw [h₁, h₂] at hfind; exact absurd hfind (by simp)
      | some q₂ =>
        rw [h₁, h₂] at hfind
        have hq : q₁.core = q₂.core := by simpa using hfind
        obtain ⟨-, hqrole, -, -, -⟩ := core_eq_proj hq
        cases k₂.role.attack_type with
        | none => rfl
        | some atk =>
          dsimp only
          rw [hqrole]

/-- A successful `choose_godfather` only sets a godfather flag: it
preserves the core roster map and every player's `dead` flag. -/
theorem choose_godfather_shape (s : GameState) (k : Nat) (s' : GameState) (g : Nat)
    (h : choose_godfather s k = some (s', g)) :
    coreMapEq s s' ∧
      ∀ pid, (s'.find pid).map Player.dead = (s.find pid).map Player.dead := by
  simp only [choose_godfather] at h
  cases hg : (godfatherCandidates s)[k % (godfatherCandidates s).length]? with
  | none => rw [hg] at h; exact absurd h (by simp)
  | some chosen =>
    rw [hg] at h
    obtain ⟨h1, h2⟩ : setGodfatherFlag s chosen.pid true = s' ∧ chosen.pid = g := by
      simpa using h
    subst h1
    constructor
    · exact updatePlayer_coreMapEq s chosen.pid
        (fun p => { p with is_godfather := true }) (fun p => rfl)
    · intro pid
      exact updatePlayer_find_proj s chosen.pid
        (fun p => { p with is_godfather := true }) Player.dead (fun p => rfl) (fun p => rfl) pid

/-- The claims of `pre_day_player_step_spec`, specialised to an
iteration that changes nothing. -/
theorem step_spec_id (acc : ResolveAcc) (q : Nat) (r : Option Player) :
    coreMapEq acc.st acc.st ∧
    (∀ pid, pid ≠ q →
      (acc.st.find pid).map Player.dead = (acc.st.find pid).map Player.dead) ∧
    ∃ ev nf,
      acc.evts = acc.evts ++ ev ∧ acc.notifs = acc.notifs ++ nf ∧
      (∀ e ∈ ev, stepEvt q e) ∧
      (∀ n ∈ nf, ∃ vr kr, n = Notif.death q vr kr) ∧
      ((Event.chatDeath q ∈ ev ∨ nf ≠ []) →
        ∃ p, r = some p ∧ p.cleaned_by = none) :=
  ⟨rfl, fun _ _ => rfl, [], [], by simp, by simp, by simp, by simp, by simp⟩

/-- What one iteration of the `pre_day` loop can do: it preserves the
core roster map and the `dead` flag of every other player, appends only
events about the processed player or godfather reassignments, appends
only death notifs about the processed player, and emits a public death
output only when the processed player is uncleaned. -/
theorem pre_day_player_step_spec (acc : ResolveAcc) (q : Nat) (acc' : ResolveAcc)
    (h : pre_day_player_step acc q = some acc') :
    coreMapEq acc.st acc'.st ∧
    (∀ pid, pid ≠ q →
      (acc'.st.find pid).map Player.dead = (acc.st.find pid).map Player.dead) ∧
    ∃ ev nf,
      acc'.evts = acc.evts ++ ev ∧ acc'.notifs = acc.notifs ++ nf ∧
      (∀ e ∈ ev, stepEvt q e) ∧
      (∀ n ∈ nf, ∃ vr kr, n = Notif.death q vr kr) ∧
      ((Event.chatDeath q ∈ ev ∨ nf ≠ []) →
        ∃ p, acc.st.find q = some p ∧ p.cleaned_by = none) := by
  unfold pre_day_player_step at h
  cases hfind : acc.st.find q with
  | none =>
    rw [hfind] at h
    dsimp only at h
    obtain rfl := Option.some.inj h
    exact step_spec_id acc q none
  | some player =>
    rw [hfind] at h
    dsimp only at h
    by_cases hdead : player.dead = true
    · rw [if_pos hdead] at h
      obtain rfl := Option.some.inj h
      exact step_spec_id acc q (some player)
    · rw [if_neg hdead] at h
      cases hkb : player.killed_by with
      | none =>
        rw [hkb] at h
        dsimp only at h
        obtain rfl := Option.some.inj h
        exact step_spec_id acc q (some player)
      | some killerPid =>
        rw [hkb] at h
        dsimp only at h
        cases hkf : acc.st.find killerPid with
        | none =>
          rw [hkf] at h
          dsimp only at h
          obtain rfl := Option.some.inj h
          exact step_spec_id acc q (some player)
        | some killer =>
          rw [hkf] at h
          dsimp only at h
          by_cases hsv : pre_day_saved acc.st player killer = true
          · by_cases hm : killer.role.is_mafia = true
            · rw [if_pos hsv, if_pos hm] at h
              obtain rfl := Option.some.inj h
              refine ⟨rfl, fun _ _ => rfl,
                [Event.savedPrivate q, Event.mafiaSaved q], [], by simp, by simp,
                ?_, by simp, by simp⟩
              intro e he
              rcases (by simpa using he :
                  e = Event.savedPrivate q ∨ e = Event.mafiaSaved q) with rfl | rfl
              · exact Or.inl rfl
              · exact Or.inl rfl
            · rw [if_pos hsv, if_neg hm] at h
              obtain rfl := Option.some.inj h
              refine ⟨rfl, fun _ _ => rfl,
                [Event.savedPrivate q], [], by simp, by simp, ?_, by simp, by simp⟩
              intro e he
              rcases (by simpa using he : e = Event.savedPrivate q) with rfl
              exact Or.inl rfl
          · rw [if_neg hsv] at h
            cases hcl : player.cleaned_by with
            | some c =>
              rw [hcl] at h
              dsimp only at h
              by_cases hgf : player.is_godfather = true
              · rw [if_pos hgf] at h
                cases hcg : choose_godfather (setDead acc.st q) (acc.rand.headD 0) with
                | none =>
                  rw [hcg] at h
                  dsimp only at h
                  exact absurd h (by simp)
                | some pr =>
                  obtain ⟨st2, newGf⟩ := pr
                  rw [hcg] at h
                  dsimp only at h
                  obtain rfl := Option.some.inj h
                  obtain ⟨hc1, hc2⟩ :=
                    choose_godfather_shape (setDead acc.st q) (acc.rand.headD 0) st2 newGf hcg
                  refine ⟨?_, ?_,
                    [Event.cleanerNotice c q player.role, Event.godfatherAssigned newGf],
                    [], by simp, by simp, ?_, by simp, by simp⟩
                  · have e1 : coreMapEq acc.st (setDead acc.st q) :=
                      updatePlayer_coreMapEq acc.st q
                        (fun p => { p with dead := true }) (fun p => rfl)
                    have e3 : coreMapEq st2 (setGodfatherFlag st2 q false) :=
                      updatePlayer_coreMapEq st2 q
                        (fun p => { p with is_godfather := false }) (fun p => rfl)
                    exact e1.trans (hc1.trans e3)
                  · intro pid hpid
                    have d3 : ((setGodfatherFlag st2 q false).find pid).map Player.dead =
                        (st2.find pid).map Player.dead :=
                      updatePlayer_find_proj st2 q
                        (fun p => { p with is_godfather := false }) Player.dead
                        (fun p => rfl) (fun p => rfl) pid
                    have d1 : (setDead acc.st q).find pid = acc.st.find pid :=
                      updatePlayer_find_ne acc.st q
                        (fun p => { p with dead := true }) (fun p => rfl) pid hpid
                    rw [d3, hc2 pid, d1]
                  · intro e he
                    rcases (by simpa using he :
                        e = Event.cleanerNotice c q player.role ∨
                          e = Event.godfatherAssigned newGf) with rfl | rfl
                    · exact Or.inl rfl
                    · exact Or.inr ⟨newGf, rfl⟩
              · rw [if_neg hgf] at h
                obtain rfl := Option.some.inj h
                refine ⟨updatePlayer_coreMapEq acc.st q
                    (fun p => { p with dead := true }) (fun p => rfl), ?_,
                  [Event.cleanerNotice c q player.role], [],
                  by simp, by simp, ?_, by simp, by simp⟩
                · intro pid hpid
                  have d1 : (setDead acc.st q).find pid = acc.st.find pid :=
                    updatePlayer_find_ne acc.st q
                      (fun p => { p with dead := true }) (fun p => rfl) pid hpid
                  show Option.map Player.dead ((setDead acc.st q).find pid) =
                    Option.map Player.dead (acc.st.find pid)
                  rw [d1]
                · intro e he
                  rcases (by simpa using he : e = Event.cleanerNotice c q player.role) with rfl
                  exact Or.inl rfl
            | none =>
              rw [hcl] at h
              dsimp only at h
              by_cases hgf : player.is_godfather = true
              · rw [if_pos hgf] at h
                cases hcg : choose_godfather (setDead acc.st q) (acc.rand.headD 0) with
                | none =>
                  rw [hcg] at h
                  dsimp only at h
                  exact absurd h (by simp)
                | some pr =>
                  obtain ⟨st2, newGf⟩ := pr
                  rw [hcg] at h
                  dsimp only at h
                  obtain rfl := Option.some.inj h
                  obtain ⟨hc1, hc2⟩ :=
                    choose_godfather_shape (setDead acc.st q) (acc.rand.headD 0) st2 newGf hcg
                  refine ⟨?_, ?_,
                    [Event.chatDeath q, Event.godfatherAssigned newGf],
                    [Notif.death q player.role killer.role],
                    by simp, by simp, ?_, ?_, ?_⟩
                  · have e1 : coreMapEq acc.st (setDead acc.st q) :=
                      updatePlayer_coreMapEq acc.st q
                        (fun p => { p with dead := true }) (fun p => rfl)
                    have e3 : coreMapEq st2 (setGodfatherFlag st2 q false) :=
                      updatePlayer_coreMapEq st2 q
                        (fun p => { p with is_godfather := false }) (fun p => rfl)
                    exact e1.trans (hc1.trans e3)
                  · intro pid hpid
                    have d3 : ((setGodfatherFlag st2 q false).find pid).map Player.dead =
                        (st2.find pid).map Player.dead :=
                      updatePlayer_find_proj st2 q
                        (fun p => { p with is_godfather := false }) Player.dead
                        (fun p => rfl) (fun p => rfl) pid
                    have d1 : (setDead acc.st q).find pid = acc.st.find pid :=
                      updatePlayer_find_ne acc.st q
                        (fun p => { p with dead := true }) (fun p => rfl) pid hpid
                    rw [d3, hc2 pid, d1]
                  · intro e he
                    rcases (by simpa using he :
                        e = Event.chatDeath q ∨ e = Event.godfatherAssigned newGf) with rfl | rfl
                    · exact Or.inl rfl
                    · exact Or.inr ⟨newGf, rfl⟩
                  · intro n hn
                    rcases (by simpa using hn :
                        n = Notif.death q player.role killer.role) with rfl
                    exact ⟨player.role, killer.role, rfl⟩
                  · intro _
                    exact ⟨player, rfl, hcl⟩
              · rw [if_neg hgf] at h
                obtain rfl := Option.some.inj h
                refine ⟨updatePlayer_coreMapEq acc.st q
                    (fun p => { p with dead := true }) (fun p => rfl), ?_,
                  [Event.chatDeath q], [Notif.death q player.role killer.role],
                  by simp, by simp, ?_, ?_, ?_⟩
                · intro pid hpid
                  have d1 : (setDead acc.st q).find pid = acc.st.find pid :=
                    updatePlayer_find_ne acc.st q
                      (fun p => { p with dead := true }) (fun p => rfl) pid hpid
                  show Option.map Player.dead ((setDead acc.st q).find pid) =
                    Option.map Player.dead (acc.st.find pid)
                  rw [d1]
                · intro e he
                  rcases (by simpa using he : e = Event.chatDeath q) with rfl
                  exact Or.inl rfl
                · intro n hn
                  rcases (by simpa using hn :
                      n = Notif.death q player.role killer.role) with rfl
                  exact ⟨player.role, killer.role, rfl⟩
                · intro _
                  exact ⟨player, rfl, hcl⟩

/-- The `pre_day` loop only appends to the event and notif lists. -/
theorem pre_day_fold_mono :
    ∀ (pids : List Nat) (acc fin : ResolveAcc),
      pre_day_fold pids acc = some fin →
      (∃ t, fin.evts = acc.evts ++ t) ∧ (∃ t, fin.notifs = acc.notifs ++ t) := by
  intro pids
  induction pids with
  | nil =>
    intro acc fin h
    obtain rfl := Option.some.inj h
    exact ⟨⟨[], by simp⟩, ⟨[], by simp⟩⟩
  | cons q rest ih =>
    intro acc fin h
    unfold pre_day_fold at h
    cases hs : pre_day_player_step acc q with
    | none => rw [hs] at h; exact absurd h (by simp)
    | some acc' =>
      rw [hs] at h
      dsimp only at h
      obtain ⟨⟨t1, ht1⟩, ⟨t2, ht2⟩⟩ := ih acc' fin h
      obtain ⟨-, -, ev, nf, he, hn, -, -, -⟩ := pre_day_player_step_spec acc q acc' hs
      exact ⟨⟨ev ++ t1, by rw [ht1, he, List.append_assoc]⟩,
             ⟨nf ++ t2, by rw [ht2, hn, List.append_assoc]⟩⟩

/-- A living, killed, unsaved, uncleaned player processed by the
`pre_day` loop gets a public death notif naming the killer's role and a
public chat announcement. -/
theorem fold_uncleaned_public
    (s : GameState) (v killer : Player) (kp : Nat)
    (hv : s.find v.pid = some v)
    (hkb : v.killed_by = some kp) (hkf : s.find kp = some killer)
    (hsv : pre_day_saved s v killer = false)
    (hcl : v.cleaned_by = none) :
    ∀ (pids : List Nat) (acc fin : ResolveAcc),
      coreMapEq s acc.st →
      (acc.st.find v.pid).map Player.dead = some false →
      v.pid ∈ pids →
      pre_day_fold pids acc = some fin →
      Notif.death v.pid v.role killer.role ∈ fin.notifs ∧
        Event.chatDeath v.pid ∈ fin.evts := by
  intro pids
  induction pids with
  | nil =>
    intro acc fin _ _ hmem
    exact absurd hmem (by simp)
  | cons q rest ih =>
    intro acc fin hcore halive hmem hfold
    unfold pre_day_fold at hfold
    cases hs : pre_day_player_step acc q with
    | none => rw [hs] at hfold; exact absurd hfold (by simp)
    | some acc' =>
      rw [hs] at hfold
      dsimp only at hfold
      by_cases hq : q = v.pid
      · subst hq
        obtain ⟨v', hv', hvc⟩ := find_coreMapEq_some hcore hv
        have hvdead : v'.dead = false := by
          rw [hv'] at halive
          simpa using halive
        obtain ⟨-, hvrole, hkb', -, hcl'⟩ := core_eq_proj hvc
        obtain ⟨k', hk', hkc⟩ := find_coreMapEq_some hcore hkf
        obtain ⟨-, hkrole, -, -, -⟩ := core_eq_proj hkc
        have hsv' : pre_day_saved acc.st v' k' = false := by
          rw [pre_day_saved_coreMapEq acc.st s (Eq.symm hcore) v' v k' killer hvc hkc]
          exact hsv
        -- reduce the step equation on v's own iteration
        unfold pre_day_player_step at hs
        rw [hv'] at hs
        dsimp only at hs
        rw [if_neg (by simp [hvdead]), hkb'.trans hkb] at hs
        dsimp only at hs
        rw [hk'] at hs
        dsimp only at hs
        rw [if_neg (by simp [hsv']), hcl'.trans hcl] at hs
        dsimp only at hs
        by_cases hgf : v'.is_godfather = true
        · rw [if_pos hgf] at hs
          cases hcg : choose_godfather (setDead acc.st v.pid) (acc.rand.headD 0) with
          | none =>
            rw [hcg] at hs
            dsimp only at hs
            exact absurd hs (by simp)
          | some pr =>
            obtain ⟨st2, newGf⟩ := pr
            rw [hcg] at hs
            dsimp only at hs
            obtain rfl := Option.some.inj hs
            obtain ⟨⟨t1, ht1⟩, ⟨t2, ht2⟩⟩ := pre_day_fold_mono rest _ fin hfold
            constructor
            · rw [ht2]
              dsimp only
              rw [hvrole, hkrole]
              simp
            · rw [ht1]
              dsimp only
              simp
        · rw [if_neg hgf] at hs
          obtain rfl := Option.some.inj hs
          obtain ⟨⟨t1, ht1⟩, ⟨t2, ht2⟩⟩ := pre_day_fold_mono rest _ fin hfold
          constructor
          · rw [ht2]
            dsimp only
            rw [hvrole, hkrole]
            simp
          · rw [ht1]
            dsimp only
            simp
      · obtain ⟨hcore', hdead', -⟩ := pre_day_player_step_spec acc q acc' hs
        have hvq : v.pid ≠ q := fun hh => hq hh.symm
        refine ih acc' fin (hcore.trans hcore') ?_ ?_ hfold
        · rw [hdead' v.pid hvq]
          exact halive
        · rcases List.mem_cons.mp hmem with h | h
          · exact absurd h.symm hq
          · exact h

/-- A living, killed, unsaved, cleaned player processed by the `pre_day`
loop produces the cleaner's private notification with the victim's
role. -/
theorem fold_cleaned_private
    (s : GameState) (v killer : Player) (kp c : Nat)
    (hv : s.find v.pid = some v)
    (hkb : v.killed_by = some kp) (hkf : s.find kp = some killer)
    (hsv : pre_day_saved s v killer = false)
    (hcl : v.cleaned_by = some c) :
    ∀ (pids : List Nat) (acc fin : ResolveAcc),
      coreMapEq s acc.st →
      (acc.st.find v.pid).map Player.dead = some false →
      v.pid ∈ pids →
      pre_day_fold pids acc = some fin →
      Event.cleanerNotice c v.pid v.role ∈ fin.evts := by
  intro pids
  induction pids with
  | nil =>
    intro acc fin _ _ hmem
    exact absurd hmem (by simp)
  | cons q rest ih =>
    intro acc fin hcore halive hmem hfold
    unfold pre_day_fold at hfold
    cases hs : pre_day_player_step acc q with
    | none => rw [hs] at hfold; exact absurd hfold (by simp)
    | some acc' =>
      rw [hs] at hfold
      dsimp only at hfold
      by_cases hq : q = v.pid
      · subst hq
        obtain ⟨v', hv', hvc⟩ := find_coreMapEq_some hcore hv
        have hvdead : v'.dead = false := by
          rw [hv'] at halive
          simpa using halive
        obtain ⟨-, hvrole, hkb', -, hcl'⟩ := core_eq_proj hvc
        obtain ⟨k', hk', hkc⟩ := find_coreMapEq_some hcore hkf
        have hsv' : pre_day_saved acc.st v' k' = false := by
          rw [pre_day_saved_coreMapEq acc.st s (Eq.symm hcore) v' v k' killer hvc hkc]
          exact hsv
        unfold pre_day_player_step at hs
        rw [hv'] at hs
        dsimp only at hs
        rw [if_neg (by simp [hvdead]), hkb'.trans hkb] at hs
        dsimp only at hs
        rw [hk'] at hs
        dsimp only at hs
        rw [if_neg (by simp [hsv']), hcl'.trans hcl] at hs
        dsimp only at hs
        by_cases hgf : v'.is_godfather = true
        · rw [if_pos hgf] at hs
          cases hcg : choose_godfather (setDead acc.st v.pid) (acc.rand.headD 0) with
          | none =>
            rw [hcg] at hs
            dsimp only at hs
            exact absurd hs (by simp)
          | some pr =>
            obtain ⟨st2, newGf⟩ := pr
            rw [hcg] at hs
            dsimp only at hs
            obtain rfl := Option.some.inj hs
            obtain ⟨⟨t1, ht1⟩, -⟩ := pre_day_fold_mono rest _ fin hfold
            rw [ht1]
            dsimp only
            rw [hvrole]
            simp
        · rw [if_neg hgf] at hs
          obtain rfl := Option.some.inj hs
          obtain ⟨⟨t1, ht1⟩, -⟩ := pre_day_fold_mono rest _ fin hfold
          rw [ht1]
          dsimp only
          rw [hvrole]
          simp
      · obtain ⟨hcore', hdead', -⟩ := pre_day_player_step_spec acc q acc' hs
        have hvq : v.pid ≠ q := fun hh => hq hh.symm
        refine ih acc' fin (hcore.trans hcore') ?_ ?_ hfold
        · rw [hdead' v.pid hvq]
          exact halive
        · rcases List.mem_cons.mp hmem with h | h
          · exact absurd h.symm hq
          · exact h

/-- A cleaned player never gains a public chat death or a public death
notif anywhere in the `pre_day` loop. -/
theorem fold_no_public_of_cleaned
    (s : GameState) (v : Player) (c : Nat)
    (hv : s.find v.pid = some v) (hcl : v.cleaned_by = some c) :
    ∀ (pids : List Nat) (acc fin : ResolveAcc),
      coreMapEq s acc.st →
      pre_day_fold pids acc = some fin →
      (Event.chatDeath v.pid ∉ acc.evts → Event.chatDeath v.pid ∉ fin.evts) ∧
      (∀ vr kr, Notif.death v.pid vr kr ∉ acc.notifs →
        Notif.death v.pid vr kr ∉ fin.notifs) := by
  intro pids
  induction pids with
  | nil =>
    intro acc fin _ h
    obtain rfl := Option.some.inj h
    exact ⟨fun h' => h', fun vr kr h' => h'⟩
  | cons q rest ih =>
    intro acc fin hcore hfold
    unfold pre_day_fold at hfold
    cases hs : pre_day_player_step acc q with
    | none => rw [hs] at hfold; exact absurd hfold (by simp)
    | some acc' =>
      rw [hs] at hfold
      dsimp only at hfold
      obtain ⟨hcore', -, ev, nf, he, hn, hev, hnf, hcond⟩ :=
        pre_day_player_step_spec acc q acc' hs
      have key_ev : Event.chatDeath v.pid ∉ ev := by
        intro hmem
        by_cases hq : q = v.pid
        · subst hq
          obtain ⟨p, hp, hpcl⟩ := hcond (Or.inl hmem)
          obtain ⟨v', hv', hvc⟩ := find_coreMapEq_some hcore hv
          rw [hv'] at hp
          obtain rfl := Option.some.inj hp
          obtain ⟨-, -, -, -, hcl'⟩ := core_eq_proj hvc
          have h1 : v'.cleaned_by = some c := hcl'.trans hcl
          rw [h1] at hpcl
          exact Option.noConfusion hpcl
        · rcases hev _ hmem with howner | ⟨g, hg⟩
          · have : v.pid = q := by simpa [evtOwner] using howner
            exact hq this.symm
          · exact Event.noConfusion hg
      have key_nf : ∀ vr kr, Notif.death v.pid vr kr ∉ nf := by
        intro vr kr hmem
        obtain ⟨vr', kr', heq⟩ := hnf _ hmem
        injection heq with h1 h2 h3
        have hne : nf ≠ [] := by
          intro hh
          rw [hh] at hmem
          exact absurd hmem (by simp)
        obtain ⟨p, hp, hpcl⟩ := hcond (Or.inr hne)
        rw [← h1] at hp
        obtain ⟨v', hv', hvc⟩ := find_coreMapEq_some hcore hv
        rw [hv'] at hp
        obtain rfl := Option.some.inj hp
        obtain ⟨-, -, -, -, hcl'⟩ := core_eq_proj hvc
        have hc1 : v'.cleaned_by = some c := hcl'.trans hcl
        rw [hc1] at hpcl
        exact Option.noConfusion hpcl
      constructor
      · intro hnot
        have hnot' : Event.chatDeath v.pid ∉ acc'.evts := by
          rw [he]
          intro hmm
          rcases List.mem_append.mp hmm with hmm | hmm
          · exact hnot hmm
          · exact key_ev hmm
        exact (ih acc' fin (hcore.trans hcore') hfold).1 hnot'
      · intro vr kr hnot
        have hnot' : Notif.death v.pid vr kr ∉ acc'.notifs := by
          rw [hn]
          intro hmm
          rcases List.mem_append.mp hmm with hmm | hmm
          · exact hnot hmm
          · exact key_nf vr kr hmm
        exact (ih acc' fin (hcore.trans hcore') hfold).2 vr kr hnot'

/-- C5.  For every player who dies to a night kill in `pre_day`: if the
victim was cleaned, no public death notification is produced — neither
the chat announcement nor a death entry in the day notification — and
the cleaner always receives a private notification that includes the
victim's role; if the victim was not cleaned, the death and the
killer's role are publicly announced in the day notification and the
chat. -/
theorem c5_clean_notifications
    (s : GameState) (rand : List Nat) (v killer : Player) (kp : Nat)
    (out : GameState × List Notif × List Event)
    (hv : s.find v.pid = some v)
    (halive : v.dead = false)
    (hkb : v.killed_by = some kp)
    (hkf : s.find kp = some killer)
    (hsv : pre_day_saved s v killer = false)
    (hday : 1 < s.day)
    (hout : pre_day s rand = some out) :
    (∀ c, v.cleaned_by = some c →
        Event.cleanerNotice c v.pid v.role ∈ out.2.2 ∧
        Event.chatDeath v.pid ∉ out.2.2 ∧
        ∀ vr kr, Notif.death v.pid vr kr ∉ out.2.1) ∧
    (v.cleaned_by = none →
        Notif.death v.pid v.role killer.role ∈ out.2.1 ∧
        Event.chatDeath v.pid ∈ out.2.2) := by
  unfold pre_day at hout
  rw [if_pos hday] at hout
  cases hf : pre_day_fold (s.players.map (fun p => p.pid)) ⟨s, [], [], false, rand⟩ with
  | none => rw [hf] at hout; exact absurd hout (by simp)
  | some acc₀ =>
    rw [hf] at hout
    dsimp only at hout
    obtain rfl := Option.some.inj hout
    have hmem : v.pid ∈ s.players.map (fun p => p.pid) :=
      List.mem_map_of_mem (fun p => p.pid) (List.mem_of_find?_eq_some hv)
    have hcore0 : coreMapEq s (⟨s, [], [], false, rand⟩ : ResolveAcc).st := rfl
    have halive' :
        ((⟨s, [], [], false, rand⟩ : ResolveAcc).st.find v.pid).map Player.dead =
          some false := by
      show (s.find v.pid).map Player.dead = some false
      rw [hv]
      simp [halive]
    constructor
    · intro c hclv
      have hpres := fold_cleaned_private s v killer kp c hv hkb hkf hsv hclv
        (s.players.map (fun p => p.pid)) ⟨s, [], [], false, rand⟩ acc₀ hcore0 halive' hmem hf
      have habs := fold_no_public_of_cleaned s v c hv hclv
        (s.players.map (fun p => p.pid)) ⟨s, [], [], false, rand⟩ acc₀ hcore0 hf
      have habs1 : Event.chatDeath v.pid ∉ acc₀.evts := habs.1 (by simp)
      have habs2 : ∀ vr kr, Notif.death v.pid vr kr ∉ acc₀.notifs :=
        fun vr kr => habs.2 vr kr (by simp)
      refine ⟨?_, ?_, ?_⟩
      · exact List.mem_append_left _ hpres
      · intro hmm
        rcases List.mem_append.mp hmm with hmm | hmm
        · exact habs1 hmm
        · exact Event.noConfusion (List.mem_singleton.mp hmm)
      · intro vr kr hmm
        by_cases hk : acc₀.killedAny = true
        · rw [if_pos hk] at hmm
          exact habs2 vr kr hmm
        · rw [if_neg hk] at hmm
          rcases List.mem_append.mp hmm with hmm | hmm
          · exact habs2 vr kr hmm
          · exact Notif.noConfusion (List.mem_singleton.mp hmm)
    · intro hclv
      have hpub := fold_uncleaned_public s v killer kp hv hkb hkf hsv hclv
        (s.players.map (fun p => p.pid)) ⟨s, [], [], false, rand⟩ acc₀ hcore0 halive' hmem hf
      constructor
      · by_cases hk : acc₀.killedAny = true
        · rw [if_pos hk]
          exact hpub.1
        · rw [if_neg hk]
          exact List.mem_append_left _ hpub.1
      · exact List.mem_append_left _ hpub.2

/-- Witness for C5: the cleaned citizen of `sC5w` yields the cleaner's
private notification and no public chat death. -/
theorem c5_witness :
    Event.cleanerNotice 0 1 Role.Citizen ∈ c5wOut.2.2 ∧
    Event.chatDeath 1 ∉ c5wOut.2.2 := by
  have h := c5_clean_notifications sC5w []
    ⟨1, 221, Role.Citizen, false, false, false, some 2, none, some 0, none⟩
    ⟨2, 222, Role.Mafia, false, true, false, none, none, none, none⟩ 2 c5wOut
    (by decide) (by decide) (by decide) (by decide) (by decide) (by decide) (by rfl)
  exact ⟨(h.1 0 rfl).1, (h.1 0 rfl).2.1⟩
